import Mathlib

/-!
# MiniC compiler — verification of the AST→IR lowering and ARM32 selection

A shallow embedding of the MiniC compiler's IR generator
(`src/ir/Generator/IRGenerator.cpp`), the IR value/instruction data model
(`src/ir/Instructions/*`, `src/ir/Values/GlobalVariable.h`) and the ARM32
branch selector (`InstSelectorArm32::translate_br`).

Values and instructions are identified by the order in which the generator
allocates them: a single `Nat` counter stands for the C++ `new` allocations
(local variables, instruction result temporaries and labels all get fresh
identities).  Instruction buffers (`node->blockInsts`) are Lean lists, appended
in exactly the order of the `addInst` calls in the source.
-/

namespace MiniC

/-- IR values (`Value` hierarchy): interned integer constants (`ConstInt`),
local variables created by `Module::newVarValue`, and instruction results
(every `Instruction` is itself a `Value`). -/
inductive Value where
  | constInt : Int → Value
  | localVar : Nat → Value
  | instrRef : Nat → Value
deriving DecidableEq, Repr

/-- Binary IR operators (`IRInstOperator`): arithmetic and comparisons. -/
inductive BinOp where
  | add | sub | mul | divi | modi | lt | gt | le | ge | eq | ne
deriving DecidableEq, Repr

/-- Linear IR instructions.  `label`, `goto` and `condGoto` carry label ids;
`move` is `MoveInstruction` (destination local id, source value); `binop` is
`BinaryInstruction` (result id, operator, operands); `loadArr`/`storeArr` are
`LoadArrayInstruction` (result id, base address, offset) and
`StoreArrayInstruction` (value, base address, offset); `slice` is
`ArraySliceInstruction` (result id, address); `call` is `FuncCallInstruction`
(result id, callee name, arguments). -/
inductive Instr where
  | label : Nat → Instr
  | goto : Nat → Instr
  | condGoto : Value → Nat → Nat → Instr
  | move : Nat → Value → Instr
  | binop : Nat → BinOp → Value → Value → Instr
  | loadArr : Nat → Value → Value → Instr
  | storeArr : Value → Value → Value → Instr
  | slice : Nat → Value → Instr
  | call : Nat → String → List Value → Instr
deriving DecidableEq, Repr

/-- Value of a `Value` under an environment mapping ids (of locals and of
instruction results) to integers. -/
def evalV (env : Nat → Int) : Value → Int
  | .constInt v => v
  | .localVar i => env i
  | .instrRef i => env i

/-- Meaning of the binary IR operators.  Division and remainder truncate
toward zero as on ARM32 (`sdiv`); comparisons produce 1 or 0. -/
def denoteOp : BinOp → Int → Int → Int
  | .add, a, b => a + b
  | .sub, a, b => a - b
  | .mul, a, b => a * b
  | .divi, a, b => Int.tdiv a b
  | .modi, a, b => Int.tmod a b
  | .lt, a, b => if a < b then 1 else 0
  | .gt, a, b => if b < a then 1 else 0
  | .le, a, b => if a ≤ b then 1 else 0
  | .ge, a, b => if b ≤ a then 1 else 0
  | .eq, a, b => if a = b then 1 else 0
  | .ne, a, b => if a = b then 0 else 1

/-- Environment update. -/
def updEnv (env : Nat → Int) (i : Nat) (v : Int) : Nat → Int :=
  fun j => if j = i then v else env j

/-- Effect of one instruction on the environment, ignoring control flow
(used for straight-line instruction sequences such as the address
computation emitted for an array access). -/
def stepStraight (env : Nat → Int) : Instr → (Nat → Int)
  | .move d v => updEnv env d (evalV env v)
  | .binop i op a b => updEnv env i (denoteOp op (evalV env a) (evalV env b))
  | _ => env

/-- Run a straight-line instruction list over an environment. -/
def runStraight : List Instr → (Nat → Int) → (Nat → Int)
  | [], env => env
  | i :: rest, env => runStraight rest (stepStraight env i)

/-! ## Array addressing (`IRGenerator::ir_calculate_array_offset`,
`IRGenerator::ir_generate_array_access_instructions`,
`IRGenerator::ir_array_access`) -/

/-- Two's-complement wrap to 32 bits (the generator's offset bookkeeping is
done in C++ `int32_t`). -/
def wrap32 (x : Int) : Int := (x + 2 ^ 31) % 2 ^ 32 - 2 ^ 31

/-- The `int32_t remainingSize = 1; for (dim : remainingDims) remainingSize *= dim;`
computation in `ir_calculate_array_offset`. -/
def remainingSizeOf (dims : List Int) : Int :=
  dims.foldl (fun a d => wrap32 (a * d)) 1

/-- The Horner loop of `ir_calculate_array_offset`: for each accessed
dimension beyond the first, emit `mul` (accumulator times the declared
dimension size) and `add` (plus the index), threading the fresh-id counter.
Returns the emitted instructions, the accumulator value and the new counter. -/
def hornerEmit : Nat → Value → List (Value × Int) → List Instr × Value × Nat
  | c, acc, [] => ([], acc, c)
  | c, acc, (idx, d) :: rest =>
      let r := hornerEmit (c + 2) (Value.instrRef (c + 1)) rest
      (Instr.binop c BinOp.mul acc (Value.constInt d) ::
         Instr.binop (c + 1) BinOp.add (Value.instrRef c) idx :: r.1,
       r.2.1, r.2.2)

/-- `IRGenerator::ir_calculate_array_offset`: `linearOffset = indices[0]`,
then for `i` in `1..accessedDims-1`, `linearOffset = linearOffset *
fullDimensions[i] + indices[i]`; for a partial access the result is further
multiplied by the product of the remaining dimensions when that product
exceeds 1.  With no indices the offset is the constant 0. -/
def ir_calculate_array_offset (c : Nat) (indices : List Value)
    (fullDims : List Int) (isFullAccess : Bool) (remainingDims : List Int) :
    Value × List Instr × Nat :=
  match indices with
  | [] => (Value.constInt 0, [], c)
  | i0 :: irest =>
    let h := hornerEmit c i0 (irest.zip (fullDims.drop 1))
    if isFullAccess then (h.2.1, h.1, h.2.2)
    else
      let rs := remainingSizeOf remainingDims
      if 1 < rs then
        (Value.instrRef h.2.2,
         h.1 ++ [Instr.binop h.2.2 BinOp.mul h.2.1 (Value.constInt rs)],
         h.2.2 + 1)
      else (h.2.1, h.1, h.2.2)

/-- Result of lowering one array access: the exposed value (`node->val`),
the element address recorded in `g_arrayAccessAddresses` (full accesses
only), the emitted instructions, and the next fresh id. -/
structure AccessResult where
  val : Value
  addr : Option Value
  insts : List Instr
  next : Nat
deriving DecidableEq, Repr

/-- `IRGenerator::ir_generate_array_access_instructions`: multiply the linear
offset by 4 (`sizeof(int)`), add the result to the array base (pointer-typed
`add`), then either `LoadArray` from that address (full access; the address
is recorded for a possible assignment LHS) or an `ArraySlice` carrying the
address (partial access, not recorded). -/
def ir_generate_array_access_instructions (c : Nat) (base : Value)
    (linearOffset : Value) (isFullAccess : Bool) : AccessResult :=
  let byteOff := Instr.binop c BinOp.mul linearOffset (Value.constInt 4)
  let addrI := Instr.binop (c + 1) BinOp.add base (Value.instrRef c)
  if isFullAccess then
    { val := Value.instrRef (c + 2)
      addr := some (Value.instrRef (c + 1))
      insts := [byteOff, addrI,
                Instr.loadArr (c + 2) (Value.instrRef (c + 1)) (Value.constInt 0)]
      next := c + 3 }
  else
    { val := Value.instrRef (c + 2)
      addr := none
      insts := [byteOff, addrI, Instr.slice (c + 2) (Value.instrRef (c + 1))]
      next := c + 3 }

/-- `IRGenerator::ir_array_access` after the indices and the array name have
been lowered: the index buffers come first (they are appended during
dimension collection), then the array-name buffer, then the offset
computation, then the access instructions.  `isFullAccess` is
`accessedDims == totalDims` and the remaining dimensions are
`fullDims[accessedDims..]`. -/
def ir_array_access_emit (c : Nat) (base : Value) (baseInsts : List Instr)
    (indices : List Value) (indexInsts : List Instr) (fullDims : List Int) :
    AccessResult :=
  let isFull := indices.length == fullDims.length
  let remainingDims := fullDims.drop indices.length
  let o := ir_calculate_array_offset c indices fullDims isFull remainingDims
  let r := ir_generate_array_access_instructions o.2.2 base o.1 isFull
  { r with insts := indexInsts ++ baseInsts ++ o.2.1 ++ r.insts }

/-- Row-major linear offset in element units, as the specification writes it:
`((c₁·d₂+c₂)·d₃+c₃)…+cₖ`. -/
def hornerSpec (cs ds : List Int) : Int :=
  match cs with
  | [] => 0
  | c0 :: rest => ((rest.zip (ds.drop 1)).foldl (fun a p => a * p.2 + p.1) c0)

/-- A value only references ids strictly below the fresh-id counter `c`
(constants reference nothing). -/
def Value.idLt : Value → Nat → Prop
  | .constInt _, _ => True
  | .localVar i, c => i < c
  | .instrRef i, c => i < c

theorem runStraight_append (l₁ l₂ : List Instr) (env : Nat → Int) :
    runStraight (l₁ ++ l₂) env = runStraight l₂ (runStraight l₁ env) := by
  induction l₁ generalizing env with
  | nil => rfl
  | cons i rest ih => simp [runStraight, ih]

/-- Evaluating the Horner chain emitted by `ir_calculate_array_offset` over an
environment: writes stay at or above the entry counter, and the accumulator
value folds the index/dimension pairs exactly as the spec's Horner form. -/
theorem hornerEmit_run (ps : List (Int × Int)) :
    ∀ (c : Nat) (acc : Value) (a : Int) (env : Nat → Int),
      evalV env acc = a → acc.idLt c →
      (∀ j, j < c →
        runStraight (hornerEmit c acc (ps.map fun p => (Value.constInt p.1, p.2))).1 env j = env j) ∧
      evalV (runStraight (hornerEmit c acc (ps.map fun p => (Value.constInt p.1, p.2))).1 env)
          (hornerEmit c acc (ps.map fun p => (Value.constInt p.1, p.2))).2.1 =
        ps.foldl (fun a p => a * p.2 + p.1) a ∧
      (hornerEmit c acc (ps.map fun p => (Value.constInt p.1, p.2))).2.1.idLt
        (hornerEmit c acc (ps.map fun p => (Value.constInt p.1, p.2))).2.2 ∧
      c ≤ (hornerEmit c acc (ps.map fun p => (Value.constInt p.1, p.2))).2.2 := by
  induction ps with
  | nil =>
      intro c acc a env hev _hlt
      refine ⟨fun j _ => rfl, ?_, ?_, le_refl c⟩
      · simpa [hornerEmit, runStraight] using hev
      · simpa [hornerEmit] using _hlt
  | cons p ps ih =>
      intro c acc a env hev hlt
      -- the two instructions of this Horner step
      set env1 := stepStraight env (Instr.binop c BinOp.mul acc (Value.constInt p.2)) with henv1
      set env2 := stepStraight env1
        (Instr.binop (c + 1) BinOp.add (Value.instrRef c) (Value.constInt p.1)) with henv2
      have hacc1 : evalV env1 acc = a := by
        cases acc with
        | constInt v => simpa using hev
        | localVar i =>
            simp only [Value.idLt] at hlt
            simp only [henv1, stepStraight, updEnv, evalV] at *
            simp [Nat.ne_of_lt hlt, hev]
        | instrRef i =>
            simp only [Value.idLt] at hlt
            simp only [henv1, stepStraight, updEnv, evalV] at *
            simp [Nat.ne_of_lt hlt, hev]
      have h1c : env1 c = a * p.2 := by
        simp only [henv1, stepStraight, updEnv]
        simp only [if_true]
        rw [hev]
        rfl
      have h2 : evalV env2 (Value.instrRef (c + 1)) = a * p.2 + p.1 := by
        simp only [evalV, henv2, stepStraight, updEnv]
        simp only [if_true]
        simp only [evalV, denoteOp]
        rw [h1c]
      have hstep := ih (c + 2) (Value.instrRef (c + 1)) (a * p.2 + p.1) env2 h2
        (by simp [Value.idLt])
      obtain ⟨hpres, hval, hidlt, hle⟩ := hstep
      have hrun : runStraight
          (hornerEmit c acc (((p :: ps)).map fun q => (Value.constInt q.1, q.2))).1 env =
          runStraight
            (hornerEmit (c + 2) (Value.instrRef (c + 1))
              (ps.map fun q => (Value.constInt q.1, q.2))).1 env2 := by
        simp [hornerEmit, runStraight, henv1, henv2]
      refine ⟨?_, ?_, ?_, ?_⟩
      · intro j hj
        rw [hrun]
        have := hpres j (by omega)
        rw [this]
        have hj1 : env2 j = env1 j := by
          simp [henv2, stepStraight, updEnv]
          intro h; omega
        have hj2 : env1 j = env j := by
          simp [henv1, stepStraight, updEnv]
          intro h; omega
        rw [hj1, hj2]
      · rw [hrun]
        simpa [hornerEmit] using hval
      · simpa [hornerEmit] using hidlt
      · have : c ≤ c + 2 := by omega
        simpa [hornerEmit] using le_trans this hle

theorem evalV_step_binop (env : Nat → Int) (i : Nat) (op : BinOp) (a b : Value) :
    evalV (stepStraight env (Instr.binop i op a b)) (Value.instrRef i) =
      denoteOp op (evalV env a) (evalV env b) := by
  simp [stepStraight, updEnv, evalV]

theorem evalV_step_binop_ne (env : Nat → Int) (i j : Nat) (op : BinOp) (a b : Value)
    (h : j ≠ i) :
    evalV (stepStraight env (Instr.binop i op a b)) (Value.instrRef j) =
      evalV env (Value.instrRef j) := by
  simp [stepStraight, updEnv, evalV, h]

theorem stepStraight_loadArr (env : Nat → Int) (i : Nat) (a b : Value) :
    stepStraight env (Instr.loadArr i a b) = env := rfl

theorem stepStraight_slice (env : Nat → Int) (i : Nat) (a : Value) :
    stepStraight env (Instr.slice i a) = env := rfl

theorem zip_map_constInt (l : List Int) (l' : List Int) :
    (l.map Value.constInt).zip l' = (l.zip l').map (fun p => (Value.constInt p.1, p.2)) := by
  rw [List.zip_map_left]
  have h : (Prod.map Value.constInt (id : Int → Int)) =
      fun p : Int × Int => (Value.constInt p.1, p.2) := funext fun p => by cases p; rfl
  rw [h]

/-- Running the instruction buffer of `ir_calculate_array_offset` on constant
indices: writes stay at or above the entry counter and the offset value
evaluates to the spec's row-major offset times the product of the remaining
dimensions (assuming the `int32_t` product does not wrap and the declared
remaining dimensions have a positive product). -/
theorem ir_calculate_array_offset_run (cs ds : List Int) (c : Nat) (env : Nat → Int)
    (hk : 1 ≤ cs.length)
    (hrs : remainingSizeOf (ds.drop cs.length) = (ds.drop cs.length).prod)
    (hp : 1 ≤ (ds.drop cs.length).prod) :
    (∀ j, j < c →
      runStraight (ir_calculate_array_offset c (cs.map Value.constInt) ds
        (cs.length == ds.length) (ds.drop cs.length)).2.1 env j = env j) ∧
    evalV (runStraight (ir_calculate_array_offset c (cs.map Value.constInt) ds
        (cs.length == ds.length) (ds.drop cs.length)).2.1 env)
      (ir_calculate_array_offset c (cs.map Value.constInt) ds
        (cs.length == ds.length) (ds.drop cs.length)).1 =
      hornerSpec cs ds * (ds.drop cs.length).prod ∧
    (ir_calculate_array_offset c (cs.map Value.constInt) ds
        (cs.length == ds.length) (ds.drop cs.length)).1.idLt
      (ir_calculate_array_offset c (cs.map Value.constInt) ds
        (cs.length == ds.length) (ds.drop cs.length)).2.2 ∧
    c ≤ (ir_calculate_array_offset c (cs.map Value.constInt) ds
        (cs.length == ds.length) (ds.drop cs.length)).2.2 := by
  cases cs with
  | nil => simp at hk
  | cons c0 rest =>
    obtain ⟨kpres, kval, kidlt, kle⟩ :=
      hornerEmit_run (rest.zip (ds.drop 1)) c (Value.constInt c0) c0 env rfl trivial
    rw [← zip_map_constInt rest (ds.drop 1)] at kpres kval kidlt kle
    by_cases hfull : (c0 :: rest).length = ds.length
    · have hbeq : ((c0 :: rest).length == ds.length) = true := by
        simpa using hfull
      have hdrop : ds.drop (c0 :: rest).length = [] :=
        List.drop_eq_nil_of_le (le_of_eq hfull.symm)
      simp only [hbeq, List.map_cons, ir_calculate_array_offset, if_true, hdrop,
        List.prod_nil, mul_one]
      exact ⟨kpres, kval, kidlt, kle⟩
    · have hbeq : ((c0 :: rest).length == ds.length) = false := by
        simpa using hfull
      simp only [hbeq, List.map_cons, ir_calculate_array_offset, Bool.false_eq_true,
        if_false]
      by_cases h1 : 1 < remainingSizeOf (ds.drop (c0 :: rest).length)
      · simp only [h1, if_true]
        set h := hornerEmit c (Value.constInt c0)
          ((rest.map Value.constInt).zip (ds.drop 1)) with hh
        rw [hrs] at h1 ⊢
        refine ⟨?_, ?_, ?_, ?_⟩
        · intro j hj
          rw [runStraight_append]
          simp only [runStraight, stepStraight, updEnv]
          rw [if_neg (by omega)]
          exact kpres j hj
        · rw [runStraight_append]
          simp only [runStraight]
          rw [evalV_step_binop, kval]
          rfl
        · simp [Value.idLt]
        · omega
      · -- remaining product is 1 (it is positive and the wrap-free value is ≤ 1)
        have hone : (ds.drop (c0 :: rest).length).prod = 1 := by
          rw [← hrs]; omega
        simp only [h1, if_false, hone, mul_one]
        exact ⟨kpres, kval, kidlt, kle⟩

/-- C1 (row-major addressing): for an access `a[c₁]…[cₖ]` with constant
indices on an array of declared shape `[d₁]…[dₙ]`, the lowering computes the
linear offset by Horner's form, multiplies by the product of the remaining
dimensions when `k < n`, multiplies by 4, and adds the result to the array
base: evaluating the emitted instructions, the byte-offset temporary equals
`4·(((c₁·d₂+c₂)·d₃+c₃)…+cₖ)·∏_{k+1..n}dⱼ`, and the buffer contains the
pointer `add` of the array base with exactly that temporary. -/
theorem c1_row_major_addressing (cs ds : List Int) (base : Value) (env : Nat → Int)
    (hk : 1 ≤ cs.length) (hn : cs.length ≤ ds.length)
    (hrs : remainingSizeOf (ds.drop cs.length) = (ds.drop cs.length).prod)
    (hp : 1 ≤ (ds.drop cs.length).prod) :
    evalV
      (runStraight (ir_array_access_emit 0 base [] (cs.map Value.constInt) [] ds).insts env)
      (Value.instrRef (ir_calculate_array_offset 0 (cs.map Value.constInt) ds
          (cs.length == ds.length) (ds.drop cs.length)).2.2) =
      4 * (hornerSpec cs ds * (ds.drop cs.length).prod) ∧
    Instr.binop ((ir_calculate_array_offset 0 (cs.map Value.constInt) ds
          (cs.length == ds.length) (ds.drop cs.length)).2.2 + 1) BinOp.add base
        (Value.instrRef (ir_calculate_array_offset 0 (cs.map Value.constInt) ds
          (cs.length == ds.length) (ds.drop cs.length)).2.2)
      ∈ (ir_array_access_emit 0 base [] (cs.map Value.constInt) [] ds).insts := by
  obtain ⟨_kpres, kval, kidlt, _kle⟩ :=
    ir_calculate_array_offset_run cs ds 0 env hk hrs hp
  set o := ir_calculate_array_offset 0 (cs.map Value.constInt) ds
    (cs.length == ds.length) (ds.drop cs.length) with ho
  have hemit : (ir_array_access_emit 0 base [] (cs.map Value.constInt) [] ds).insts =
      o.2.1 ++ (ir_generate_array_access_instructions o.2.2 base o.1
        (cs.length == ds.length)).insts := by
    simp [ir_array_access_emit, List.length_map, ho]
  have haccess : (ir_generate_array_access_instructions o.2.2 base o.1
      (cs.length == ds.length)).insts =
      Instr.binop o.2.2 BinOp.mul o.1 (Value.constInt 4) ::
      Instr.binop (o.2.2 + 1) BinOp.add base (Value.instrRef o.2.2) ::
      [if (cs.length == ds.length) then
        Instr.loadArr (o.2.2 + 2) (Value.instrRef (o.2.2 + 1)) (Value.constInt 0)
       else Instr.slice (o.2.2 + 2) (Value.instrRef (o.2.2 + 1))] := by
    cases (cs.length == ds.length) <;>
      simp [ir_generate_array_access_instructions]
  constructor
  · rw [hemit, haccess, runStraight_append]
    set env' := runStraight o.2.1 env with henv'
    have hne : (o.2.2 : Nat) ≠ o.2.2 + 1 := by omega
    cases hb : (cs.length == ds.length) with
    | true =>
        simp only [hb, if_true, runStraight]
        rw [stepStraight_loadArr,
          evalV_step_binop_ne _ (o.2.2 + 1) o.2.2 BinOp.add base (Value.instrRef o.2.2) hne,
          evalV_step_binop, kval]
        exact mul_comm (hornerSpec cs ds * (List.drop cs.length ds).prod) 4
    | false =>
        simp only [hb, Bool.false_eq_true, if_false, runStraight]
        rw [stepStraight_slice,
          evalV_step_binop_ne _ (o.2.2 + 1) o.2.2 BinOp.add base (Value.instrRef o.2.2) hne,
          evalV_step_binop, kval]
        exact mul_comm (hornerSpec cs ds * (List.drop cs.length ds).prod) 4
  · rw [hemit, haccess]
    simp

/-- Witness for C1: a full access `a[1][2]` on shape `[3][4]` (byte offset
`4·(1·4+2) = 24`) and a partial access `a[1]` on shape `[3][4]`
(byte offset `4·1·4 = 16`). -/
theorem c1_row_major_addressing_witness :
    ((1 ≤ ([1, 2] : List Int).length) ∧ (([1, 2] : List Int).length ≤ ([3, 4] : List Int).length) ∧
      remainingSizeOf (([3, 4] : List Int).drop 2) = (([3, 4] : List Int).drop 2).prod ∧
      1 ≤ (([3, 4] : List Int).drop 2).prod ∧
      evalV
        (runStraight (ir_array_access_emit 0 (Value.localVar 100) []
          (([1, 2] : List Int).map Value.constInt) [] [3, 4]).insts (fun _ => 0))
        (Value.instrRef (ir_calculate_array_offset 0 (([1, 2] : List Int).map Value.constInt)
          [3, 4] (([1, 2] : List Int).length == ([3, 4] : List Int).length)
          (([3, 4] : List Int).drop ([1, 2] : List Int).length)).2.2) =
        4 * (hornerSpec [1, 2] [3, 4] * (([3, 4] : List Int).drop 2).prod)) ∧
    ((1 ≤ ([1] : List Int).length) ∧
      evalV
        (runStraight (ir_array_access_emit 0 (Value.localVar 100) []
          (([1] : List Int).map Value.constInt) [] [3, 4]).insts (fun _ => 0))
        (Value.instrRef (ir_calculate_array_offset 0 (([1] : List Int).map Value.constInt)
          [3, 4] (([1] : List Int).length == ([3, 4] : List Int).length)
          (([3, 4] : List Int).drop ([1] : List Int).length)).2.2) =
        4 * (hornerSpec [1] [3, 4] * (([3, 4] : List Int).drop 1).prod)) :=
  ⟨⟨by decide, by decide, by decide, by decide,
    (c1_row_major_addressing [1, 2] [3, 4] (Value.localVar 100) (fun _ => 0)
      (by decide) (by decide) (by decide) (by decide)).1⟩,
   ⟨by decide,
    (c1_row_major_addressing [1] [3, 4] (Value.localVar 100) (fun _ => 0)
      (by decide) (by decide) (by decide) (by decide)).1⟩⟩

/-! ## Assignment to an array element (`IRGenerator::ir_assign`) -/

/-- `IRGenerator::ir_assign` when the LHS is an `AST_OP_ARRAY_ACCESS` node:
the RHS buffer, then the LHS buffer exactly as produced by
`ir_array_access` (it is not edited), then a `StoreArray` of the RHS value
to the address recorded in `g_arrayAccessAddresses` (offset constant 0). -/
def ir_assign_array_emit (rinsts : List Instr) (rval : Value)
    (linsts : List Instr) (addr : Value) : List Instr :=
  rinsts ++ linsts ++ [Instr.storeArr rval addr (Value.constInt 0)]

/-- Number of instructions satisfying `f` in a buffer. -/
def countIf (f : Instr → Bool) (l : List Instr) : Nat := (l.filter f).length

def isLoad : Instr → Bool
  | .loadArr _ _ _ => true
  | _ => false

def isStore : Instr → Bool
  | .storeArr _ _ _ => true
  | _ => false

def isSlice : Instr → Bool
  | .slice _ _ => true
  | _ => false

theorem countIf_append (f : Instr → Bool) (a b : List Instr) :
    countIf f (a ++ b) = countIf f a + countIf f b := by
  simp [countIf, List.filter_append]

theorem hornerEmit_countIf (f : Instr → Bool)
    (hf : ∀ i op a b, f (Instr.binop i op a b) = false) (ps : List (Value × Int)) :
    ∀ (c : Nat) (acc : Value), countIf f (hornerEmit c acc ps).1 = 0 := by
  induction ps with
  | nil => intro c acc; simp [hornerEmit, countIf]
  | cons p ps ih =>
      intro c acc
      cases p with
      | mk idx d =>
          simp [hornerEmit, countIf, List.filter_cons, hf] at *
          exact ih (c + 2) (Value.instrRef (c + 1))

theorem ir_calculate_array_offset_countIf (f : Instr → Bool)
    (hf : ∀ i op a b, f (Instr.binop i op a b) = false) (c : Nat)
    (indices : List Value) (fullDims : List Int) (isFullAccess : Bool)
    (remainingDims : List Int) :
    countIf f (ir_calculate_array_offset c indices fullDims isFullAccess
      remainingDims).2.1 = 0 := by
  cases indices with
  | nil => simp [ir_calculate_array_offset, countIf]
  | cons i0 irest =>
      simp only [ir_calculate_array_offset]
      cases isFullAccess with
      | true => simpa using hornerEmit_countIf f hf _ c i0
      | false =>
          by_cases h1 : 1 < remainingSizeOf remainingDims
          · simp only [Bool.false_eq_true, if_false, h1, if_true]
            rw [countIf_append]
            have h0 := hornerEmit_countIf f hf (irest.zip (fullDims.drop 1)) c i0
            rw [List.drop_one] at h0
            simp [countIf, List.filter_cons, hf] at h0 ⊢
            exact h0
          · simp only [Bool.false_eq_true, if_false, h1]
            simpa using hornerEmit_countIf f hf _ c i0

/-- C2 (amended): an array access lowered as an rvalue emits exactly one
`LoadArray` of its own when the access is full, and exactly one `Slice`
(and no load) when it is partial — on top of whatever its index and base
sub-buffers already contain — and never a `StoreArray`.  When the access is
the LHS of an assignment, `ir_assign` appends a single `StoreArray`, but the
`LoadArray` inside the LHS buffer is NOT suppressed: it is still present in
the assignment's buffer. -/
theorem c2_load_store_accounting (c : Nat) (base : Value) (baseInsts : List Instr)
    (indices : List Value) (indexInsts : List Instr) (fullDims : List Int)
    (rinsts : List Instr) (rval addr : Value) :
    (indices.length = fullDims.length →
      countIf isLoad (ir_array_access_emit c base baseInsts indices indexInsts fullDims).insts =
        countIf isLoad indexInsts + countIf isLoad baseInsts + 1 ∧
      countIf isStore (ir_array_access_emit c base baseInsts indices indexInsts fullDims).insts =
        countIf isStore indexInsts + countIf isStore baseInsts ∧
      countIf isSlice (ir_array_access_emit c base baseInsts indices indexInsts fullDims).insts =
        countIf isSlice indexInsts + countIf isSlice baseInsts ∧
      countIf isStore (ir_assign_array_emit rinsts rval
          (ir_array_access_emit c base baseInsts indices indexInsts fullDims).insts addr) =
        countIf isStore rinsts + countIf isStore indexInsts + countIf isStore baseInsts + 1 ∧
      countIf isLoad (ir_assign_array_emit rinsts rval
          (ir_array_access_emit c base baseInsts indices indexInsts fullDims).insts addr) =
        countIf isLoad rinsts + countIf isLoad indexInsts + countIf isLoad baseInsts + 1) ∧
    (indices.length ≠ fullDims.length →
      countIf isSlice (ir_array_access_emit c base baseInsts indices indexInsts fullDims).insts =
        countIf isSlice indexInsts + countIf isSlice baseInsts + 1 ∧
      countIf isLoad (ir_array_access_emit c base baseInsts indices indexInsts fullDims).insts =
        countIf isLoad indexInsts + countIf isLoad baseInsts ∧
      countIf isStore (ir_array_access_emit c base baseInsts indices indexInsts fullDims).insts =
        countIf isStore indexInsts + countIf isStore baseInsts) := by
  constructor
  · intro hfull
    have hbeq : (indices.length == fullDims.length) = true := by simpa using hfull
    have haccess : (ir_array_access_emit c base baseInsts indices indexInsts fullDims).insts =
        indexInsts ++ baseInsts ++
        (ir_calculate_array_offset c indices fullDims true (fullDims.drop indices.length)).2.1 ++
        [Instr.binop (ir_calculate_array_offset c indices fullDims true
            (fullDims.drop indices.length)).2.2 BinOp.mul
          (ir_calculate_array_offset c indices fullDims true (fullDims.drop indices.length)).1
          (Value.constInt 4),
         Instr.binop ((ir_calculate_array_offset c indices fullDims true
            (fullDims.drop indices.length)).2.2 + 1) BinOp.add base
          (Value.instrRef (ir_calculate_array_offset c indices fullDims true
            (fullDims.drop indices.length)).2.2),
         Instr.loadArr ((ir_calculate_array_offset c indices fullDims true
            (fullDims.drop indices.length)).2.2 + 2)
          (Value.instrRef ((ir_calculate_array_offset c indices fullDims true
            (fullDims.drop indices.length)).2.2 + 1)) (Value.constInt 0)] := by
      simp [ir_array_access_emit, hbeq, ir_generate_array_access_instructions]
    have hL := ir_calculate_array_offset_countIf isLoad (fun _ _ _ _ => rfl) c indices
      fullDims true (fullDims.drop indices.length)
    have hS := ir_calculate_array_offset_countIf isStore (fun _ _ _ _ => rfl) c indices
      fullDims true (fullDims.drop indices.length)
    have hSl := ir_calculate_array_offset_countIf isSlice (fun _ _ _ _ => rfl) c indices
      fullDims true (fullDims.drop indices.length)
    refine ⟨?_, ?_, ?_, ?_, ?_⟩ <;>
    · simp only [haccess, ir_assign_array_emit, countIf_append, hL, hS, hSl]
      simp [countIf, List.filter_cons, isLoad, isStore, isSlice]
      try omega
  · intro hpart
    have hbeq : (indices.length == fullDims.length) = false := by simpa using hpart
    have haccess : (ir_array_access_emit c base baseInsts indices indexInsts fullDims).insts =
        indexInsts ++ baseInsts ++
        (ir_calculate_array_offset c indices fullDims false (fullDims.drop indices.length)).2.1 ++
        [Instr.binop (ir_calculate_array_offset c indices fullDims false
            (fullDims.drop indices.length)).2.2 BinOp.mul
          (ir_calculate_array_offset c indices fullDims false (fullDims.drop indices.length)).1
          (Value.constInt 4),
         Instr.binop ((ir_calculate_array_offset c indices fullDims false
            (fullDims.drop indices.length)).2.2 + 1) BinOp.add base
          (Value.instrRef (ir_calculate_array_offset c indices fullDims false
            (fullDims.drop indices.length)).2.2),
         Instr.slice ((ir_calculate_array_offset c indices fullDims false
            (fullDims.drop indices.length)).2.2 + 2)
          (Value.instrRef ((ir_calculate_array_offset c indices fullDims false
            (fullDims.drop indices.length)).2.2 + 1))] := by
      simp [ir_array_access_emit, hbeq, ir_generate_array_access_instructions]
    have hL := ir_calculate_array_offset_countIf isLoad (fun _ _ _ _ => rfl) c indices
      fullDims false (fullDims.drop indices.length)
    have hS := ir_calculate_array_offset_countIf isStore (fun _ _ _ _ => rfl) c indices
      fullDims false (fullDims.drop indices.length)
    have hSl := ir_calculate_array_offset_countIf isSlice (fun _ _ _ _ => rfl) c indices
      fullDims false (fullDims.drop indices.length)
    refine ⟨?_, ?_, ?_⟩ <;>
    · simp only [haccess, countIf_append, hL, hS, hSl]
      simp [countIf, List.filter_cons, isLoad, isStore, isSlice]
      try omega

/-- Witness for C2: full access `a[0]` on shape `[3]` in the assignment
`a[0] = 5`, and partial access `a[0]` on shape `[3][4]`. -/
theorem c2_load_store_accounting_witness :
    (countIf isLoad (ir_assign_array_emit [] (Value.constInt 5)
      (ir_array_access_emit 0 (Value.localVar 100) [] [Value.constInt 0] [] [3]).insts
      (Value.instrRef 1)) =
      countIf isLoad [] + countIf isLoad [] + countIf isLoad [] + 1) ∧
    countIf isSlice
      (ir_array_access_emit 0 (Value.localVar 100) [] [Value.constInt 0] [] [3, 4]).insts =
      countIf isSlice [] + countIf isSlice [] + 1 :=
  ⟨((c2_load_store_accounting 0 (Value.localVar 100) [] [Value.constInt 0] [] [3]
     [] (Value.constInt 5) (Value.instrRef 1)).1 (by decide)).2.2.2.2,
   ((c2_load_store_accounting 0 (Value.localVar 100) [] [Value.constInt 0] [] [3, 4]
     [] (Value.constInt 5) (Value.instrRef 1)).2 (by decide)).1⟩

/-- Counterexample for C2 as frozen: for the assignment `a[0] = 5` (shape
`[3]`), the emitted buffer still contains a `LoadArray` — one load, not
zero — so the claim that "the LoadArray is suppressed and a single
StoreArray is emitted in its place" is false (the StoreArray is added, the
LoadArray stays). -/
theorem c2_load_not_suppressed :
    countIf isLoad (ir_assign_array_emit [] (Value.constInt 5)
      (ir_array_access_emit 0 (Value.localVar 100) [] [Value.constInt 0] [] [3]).insts
      (Value.instrRef 1)) = 1 ∧
    countIf isStore (ir_assign_array_emit [] (Value.constInt 5)
      (ir_array_access_emit 0 (Value.localVar 100) [] [Value.constInt 0] [] [3]).insts
      (Value.instrRef 1)) = 1 := by
  constructor <;> decide

/-! ## A small-step interpreter for the linear IR

Execution semantics of the emitted buffers, used to settle the control-flow
claims: a program counter over the instruction list, an environment for
local/temporary ids, and the trace of function names called so far. -/

/-- Index of the (unique) `label l` instruction in a buffer. -/
def findLabel (l : Nat) : List Instr → Option Nat
  | [] => none
  | i :: rest =>
    match i with
    | .label m => if m = l then some 0 else (findLabel l rest).map (· + 1)
    | _ => (findLabel l rest).map (· + 1)

/-- Interpreter state. -/
structure ExecSt where
  env : Nat → Int
  pc : Nat
  calls : List String

/-- One step: `goto`/`condGoto` jump to the position of their target label
(`condGoto` takes the true target when its condition is non-zero); moves and
binary operations update the environment; a call appends the callee name to
the trace (its result is abstracted to 0, as is a loaded array element);
stores do not affect the register environment. -/
def step (insts : List Instr) (s : ExecSt) : Option ExecSt :=
  match insts[s.pc]? with
  | none => none
  | some i =>
    match i with
    | .label _ => some { s with pc := s.pc + 1 }
    | .goto l => (findLabel l insts).map fun p => { s with pc := p }
    | .condGoto cv lt lf =>
        (findLabel (if evalV s.env cv ≠ 0 then lt else lf) insts).map
          fun p => { s with pc := p }
    | .move d v => some { s with env := updEnv s.env d (evalV s.env v), pc := s.pc + 1 }
    | .binop i op a b =>
        some { s with env := updEnv s.env i (denoteOp op (evalV s.env a) (evalV s.env b)),
                      pc := s.pc + 1 }
    | .loadArr i _ _ => some { s with env := updEnv s.env i 0, pc := s.pc + 1 }
    | .storeArr _ _ _ => some { s with pc := s.pc + 1 }
    | .slice i a => some { s with env := updEnv s.env i (evalV s.env a), pc := s.pc + 1 }
    | .call i f _ =>
        some { s with env := updEnv s.env i 0, pc := s.pc + 1, calls := s.calls ++ [f] }

/-- Run for at most `fuel` steps (execution stops when the program counter
leaves the buffer). -/
def run (insts : List Instr) : Nat → ExecSt → ExecSt
  | 0, s => s
  | fuel + 1, s =>
    match step insts s with
    | none => s
    | some s' => run insts fuel s'

/-! ## Boolean widening and comparison lowering
(`IRGenerator::convertBoolToInt`, `ir_lt` … `ir_ne`, `ir_not`,
`ir_and`, `ir_or`) -/

/-- `IRGenerator::convertBoolToInt`: fresh i32 local `result` (id `c`),
fresh labels `L_true`, `L_false`, `L_end`; branch on the i1 `boolValue`,
`result = 1` at `L_true`, `result = 0` at `L_false`, join at `L_end`.
Returns the id of `result`, the appended instructions, and the next
fresh id. -/
def convertBoolToInt (c : Nat) (boolValue : Value) : Nat × List Instr × Nat :=
  (c,
   [Instr.condGoto boolValue (c + 1) (c + 2),
    Instr.label (c + 1), Instr.move c (Value.constInt 1), Instr.goto (c + 3),
    Instr.label (c + 2), Instr.move c (Value.constInt 0), Instr.goto (c + 3),
    Instr.label (c + 3)],
   c + 4)

/-- `IRGenerator::ir_lt`: left buffer, right buffer, an `icmp lt` of result
type i1, then `convertBoolToInt` — the exposed value is always the widened
i32 local, whatever the enclosing context. -/
def ir_lt (c : Nat) (lval rval : Value) (linsts rinsts : List Instr) :
    Value × List Instr × Nat :=
  let w := convertBoolToInt (c + 1) (Value.instrRef c)
  (Value.localVar w.1,
   linsts ++ rinsts ++ [Instr.binop c BinOp.lt lval rval] ++ w.2.1, w.2.2)

/-- `IRGenerator::ir_gt`: same shape as `ir_lt` (always widens). -/
def ir_gt (c : Nat) (lval rval : Value) (linsts rinsts : List Instr) :
    Value × List Instr × Nat :=
  let w := convertBoolToInt (c + 1) (Value.instrRef c)
  (Value.localVar w.1,
   linsts ++ rinsts ++ [Instr.binop c BinOp.gt lval rval] ++ w.2.1, w.2.2)

/-- `IRGenerator::ir_le`: exposes the raw i1 comparison (no widening,
whatever the enclosing context). -/
def ir_le (c : Nat) (lval rval : Value) (linsts rinsts : List Instr) :
    Value × List Instr × Nat :=
  (Value.instrRef c, linsts ++ rinsts ++ [Instr.binop c BinOp.le lval rval], c + 1)

/-- `IRGenerator::ir_ge`: exposes the raw i1 comparison. -/
def ir_ge (c : Nat) (lval rval : Value) (linsts rinsts : List Instr) :
    Value × List Instr × Nat :=
  (Value.instrRef c, linsts ++ rinsts ++ [Instr.binop c BinOp.ge lval rval], c + 1)

/-- `IRGenerator::ir_eq`: exposes the raw i1 comparison. -/
def ir_eq (c : Nat) (lval rval : Value) (linsts rinsts : List Instr) :
    Value × List Instr × Nat :=
  (Value.instrRef c, linsts ++ rinsts ++ [Instr.binop c BinOp.eq lval rval], c + 1)

/-- `IRGenerator::ir_ne`: exposes the raw i1 comparison. -/
def ir_ne (c : Nat) (lval rval : Value) (linsts rinsts : List Instr) :
    Value × List Instr × Nat :=
  (Value.instrRef c, linsts ++ rinsts ++ [Instr.binop c BinOp.ne lval rval], c + 1)

/-- `IRGenerator::ir_not`: emit `operand == 0` at type i1, then widen. -/
def ir_not (c : Nat) (oval : Value) (oinsts : List Instr) :
    Value × List Instr × Nat :=
  let w := convertBoolToInt (c + 1) (Value.instrRef c)
  (Value.localVar w.1,
   oinsts ++ [Instr.binop c BinOp.eq oval (Value.constInt 0)] ++ w.2.1, w.2.2)

/-- `IRGenerator::ir_and`: labels `L_rhs` (id `c`), `L_false` (`c+1`),
`L_end` (`c+2`); `cmpL = lhs != 0` (`c+3`), conditional branch to
`L_rhs`/`L_false`; at `L_rhs` the right buffer, `cmpR = rhs != 0` (`c+4`),
the widening of `cmpR` into the result local (`c+5`), `goto L_end`; at
`L_false` `result = 0`, `goto L_end`; then `L_end`. -/
def ir_and (c : Nat) (lval rval : Value) (linsts rinsts : List Instr) :
    Value × List Instr × Nat :=
  let w := convertBoolToInt (c + 5) (Value.instrRef (c + 4))
  (Value.localVar w.1,
   linsts ++
   [Instr.binop (c + 3) BinOp.ne lval (Value.constInt 0),
    Instr.condGoto (Value.instrRef (c + 3)) c (c + 1),
    Instr.label c] ++
   rinsts ++
   [Instr.binop (c + 4) BinOp.ne rval (Value.constInt 0)] ++
   w.2.1 ++
   [Instr.goto (c + 2),
    Instr.label (c + 1),
    Instr.move w.1 (Value.constInt 0),
    Instr.goto (c + 2),
    Instr.label (c + 2)],
   w.2.2)

/-- `IRGenerator::ir_or`: labels `L_rhs` (id `c`), `L_true` (`c+1`),
`L_end` (`c+2`); `cmpL = lhs != 0` branches to `L_true` when non-zero and
to `L_rhs` otherwise; at `L_true` `result = 1`. -/
def ir_or (c : Nat) (lval rval : Value) (linsts rinsts : List Instr) :
    Value × List Instr × Nat :=
  let w := convertBoolToInt (c + 5) (Value.instrRef (c + 4))
  (Value.localVar w.1,
   linsts ++
   [Instr.binop (c + 3) BinOp.ne lval (Value.constInt 0),
    Instr.condGoto (Value.instrRef (c + 3)) (c + 1) c,
    Instr.label c] ++
   rinsts ++
   [Instr.binop (c + 4) BinOp.ne rval (Value.constInt 0)] ++
   w.2.1 ++
   [Instr.goto (c + 2),
    Instr.label (c + 1),
    Instr.move w.1 (Value.constInt 1),
    Instr.goto (c + 2),
    Instr.label (c + 2)],
   w.2.2)

/-! ## Structured statements (`IRGenerator::ir_if`, `ir_while`,
`ir_break`, `ir_continue`) -/

/-- `IRGenerator::ir_if` after the condition/then/else children have been
lowered: labels `L_then` (id `c`), `L_else` (`c+1`), `L_end` (`c+2`).  A
`ConstInt` condition specializes the branch to an unconditional goto
(`L_then` when non-zero, `L_else` when zero); otherwise a conditional
branch is emitted.  Both bodies are laid out afterwards: `L_then`, then
body, `goto L_end`, `L_else`, else body (empty when absent, fall-through),
`L_end`. -/
def ir_if (c : Nat) (condVal : Value) (condInsts thenInsts : List Instr)
    (elseInsts : Option (List Instr)) : List Instr × Nat :=
  let branch : List Instr :=
    match condVal with
    | .constInt v => if v ≠ 0 then [Instr.goto c] else [Instr.goto (c + 1)]
    | _ => [Instr.condGoto condVal c (c + 1)]
  (condInsts ++ branch ++
    [Instr.label c] ++ thenInsts ++ [Instr.goto (c + 2), Instr.label (c + 1)] ++
    elseInsts.getD [] ++ [Instr.label (c + 2)], c + 3)

/-- C3 (amended): for an `if` whose lowered condition is a `ConstInt`, the
lowering specializes only the branch, replacing the conditional jump by a
single unconditional `goto` — to `L_then` when the constant is non-zero and
to `L_else` when it is zero.  Both branch bodies are still emitted in the
standard layout (the unselected one is merely unreachable): executing the
buffer of `if (1) a=1; else b=1;` runs the then-body and never the
else-body. -/
theorem c3_constant_if_specializes (c : Nat) (v : Int)
    (condInsts thenInsts : List Instr) (elseInsts : Option (List Instr)) :
    (ir_if c (Value.constInt v) condInsts thenInsts elseInsts).1 =
      condInsts ++ [Instr.goto (if v ≠ 0 then c else c + 1)] ++
      [Instr.label c] ++ thenInsts ++ [Instr.goto (c + 2), Instr.label (c + 1)] ++
      elseInsts.getD [] ++ [Instr.label (c + 2)] ∧
    (run (ir_if 0 (Value.constInt 1) [] [Instr.move 50 (Value.constInt 1)]
        (some [Instr.move 60 (Value.constInt 1)])).1 20
      ⟨fun _ => 0, 0, []⟩).env 50 = 1 ∧
    (run (ir_if 0 (Value.constInt 1) [] [Instr.move 50 (Value.constInt 1)]
        (some [Instr.move 60 (Value.constInt 1)])).1 20
      ⟨fun _ => 0, 0, []⟩).env 60 = 0 := by
  refine ⟨?_, by decide, by decide⟩
  by_cases h : v = 0 <;> simp [ir_if, h]

/-- Counterexample for C3 as frozen: with condition `ConstInt 1` the
else-branch body is still emitted (and with `ConstInt 0` the then-branch
body is still emitted), contradicting "only the then-branch body is
emitted" / "only the else-branch body is emitted". -/
theorem c3_both_bodies_emitted :
    Instr.move 60 (Value.constInt 7) ∈
      (ir_if 0 (Value.constInt 1) [] [] (some [Instr.move 60 (Value.constInt 7)])).1 ∧
    Instr.move 50 (Value.constInt 6) ∈
      (ir_if 0 (Value.constInt 0) [] [Instr.move 50 (Value.constInt 6)] none).1 := by
  constructor <;> decide

/-- Witness for C3: the specialization equation at condition `ConstInt 1`,
labels from 0, a one-instruction then-body and no else. -/
theorem c3_constant_if_specializes_witness :
    (ir_if 0 (Value.constInt 1) [] [Instr.move 50 (Value.constInt 1)] none).1 =
      [] ++ [Instr.goto (if (1 : Int) ≠ 0 then 0 else 0 + 1)] ++
      [Instr.label 0] ++ [Instr.move 50 (Value.constInt 1)] ++
      [Instr.goto (0 + 2), Instr.label (0 + 1)] ++ [] ++ [Instr.label (0 + 2)] :=
  (c3_constant_if_specializes 0 1 [] [Instr.move 50 (Value.constInt 1)] none).1

/-- C4 (amended): the value a comparison exposes depends only on the
operator, never on the parent context (the lowering functions receive no
context): `<` and `>` always widen the i1 comparison through the
branch-based bool→int pattern and expose the fresh i32 local, while `<=`,
`>=`, `==` and `!=` always expose the raw i1 comparison result, with no
widening instructions in their buffers. -/
theorem c4_widening_depends_on_operator_only (c : Nat) (lval rval : Value)
    (linsts rinsts : List Instr) :
    (ir_lt c lval rval linsts rinsts).1 = Value.localVar (c + 1) ∧
    (ir_gt c lval rval linsts rinsts).1 = Value.localVar (c + 1) ∧
    (ir_le c lval rval linsts rinsts).1 = Value.instrRef c ∧
    (ir_ge c lval rval linsts rinsts).1 = Value.instrRef c ∧
    (ir_eq c lval rval linsts rinsts).1 = Value.instrRef c ∧
    (ir_ne c lval rval linsts rinsts).1 = Value.instrRef c ∧
    (ir_lt c lval rval linsts rinsts).2.1 =
      linsts ++ rinsts ++ [Instr.binop c BinOp.lt lval rval] ++
        (convertBoolToInt (c + 1) (Value.instrRef c)).2.1 ∧
    (ir_gt c lval rval linsts rinsts).2.1 =
      linsts ++ rinsts ++ [Instr.binop c BinOp.gt lval rval] ++
        (convertBoolToInt (c + 1) (Value.instrRef c)).2.1 ∧
    (ir_le c lval rval linsts rinsts).2.1 =
      linsts ++ rinsts ++ [Instr.binop c BinOp.le lval rval] ∧
    (ir_ge c lval rval linsts rinsts).2.1 =
      linsts ++ rinsts ++ [Instr.binop c BinOp.ge lval rval] ∧
    (ir_eq c lval rval linsts rinsts).2.1 =
      linsts ++ rinsts ++ [Instr.binop c BinOp.eq lval rval] ∧
    (ir_ne c lval rval linsts rinsts).2.1 =
      linsts ++ rinsts ++ [Instr.binop c BinOp.ne lval rval] :=
  ⟨rfl, rfl, rfl, rfl, rfl, rfl, rfl, rfl, rfl, rfl, rfl, rfl⟩

/-- Counterexample for C4 as frozen: in `if (x < y) …` — a comparison whose
parent IS an if-condition — the value handed to `ir_if` and tested by the
emitted conditional branch is the widened i32 local (`%l1`), not the raw i1
comparison (`%t0`); and `x == y` used as an ordinary operand — a context the
claim says must widen — exposes exactly the raw i1 comparison with no
widening instructions at all. -/
theorem c4_context_insensitivity_refuted :
    (ir_lt 0 (Value.localVar 100) (Value.localVar 101) [] []).1 ≠ Value.instrRef 0 ∧
    Instr.condGoto (Value.localVar 1) 5 6 ∈
      (ir_if (ir_lt 0 (Value.localVar 100) (Value.localVar 101) [] []).2.2
        (ir_lt 0 (Value.localVar 100) (Value.localVar 101) [] []).1
        (ir_lt 0 (Value.localVar 100) (Value.localVar 101) [] []).2.1 [] none).1 ∧
    (ir_eq 0 (Value.localVar 100) (Value.localVar 101) [] []).1 = Value.instrRef 0 ∧
    (ir_eq 0 (Value.localVar 100) (Value.localVar 101) [] []).2.1 =
      [Instr.binop 0 BinOp.eq (Value.localVar 100) (Value.localVar 101)] := by
  refine ⟨by decide, by decide, rfl, rfl⟩

/-! ## Identifier lookup (`IRGenerator::ir_leaf_node_var_id`) -/

/-- Modelled from the spec: `Module::findVarValue` is not under `src/`
(only its caller `ir_leaf_node_var_id` is); §4.1 describes it as
"searches scopes", the scope stack being walked innermost outward, so the
first scope binding the name wins and the result is `none` when no scope
binds it. -/
def findVarValue (scopes : List (List (String × Value))) (name : String) :
    Option Value :=
  match scopes with
  | [] => none
  | s :: rest =>
    match s.lookup name with
    | some v => some v
    | none => findVarValue rest name

/-- `IRGenerator::ir_leaf_node_var_id`: store the lookup result into
`node->val` and return `true` — unconditionally, with no check that the
lookup succeeded.  The pair is (per-node success flag, `node->val`). -/
def ir_leaf_node_var_id (scopes : List (List (String × Value))) (name : String) :
    Bool × Option Value :=
  (true, findVarValue scopes name)

/-- Counterexample for C5 as frozen: looking up the undefined identifier
`x` (no scope binds it), `ir_leaf_node_var_id` returns success `true` with
a null `node->val` — the per-node success flag is NOT false, so the claimed
*UndefinedSymbol* failure does not happen. -/
theorem c5_lookup_failure_still_succeeds :
    ir_leaf_node_var_id [[("y", Value.localVar 0)]] "x" = (true, none) ∧
    (ir_leaf_node_var_id [[("y", Value.localVar 0)]] "x").1 ≠ false :=
  ⟨rfl, by decide⟩

/-- C5 (amended): identifier lowering does look the name up in the scope
stack walking innermost outward (an inner binding shadows an outer one, and
an unbound inner scope defers outward), but the per-node success flag is
`true` regardless of the outcome: a missing name yields a null `node->val`
with no *UndefinedSymbol* error. -/
theorem c5_identifier_lookup (scopes rest : List (List (String × Value)))
    (s : List (String × Value)) (name : String) (v : Value)
    (hhit : s.lookup name = some v) :
    ir_leaf_node_var_id scopes name = (true, findVarValue scopes name) ∧
    findVarValue (s :: rest) name = some v ∧
    (∀ s' : List (String × Value), s'.lookup name = none →
      findVarValue (s' :: rest) name = findVarValue rest name) ∧
    (ir_leaf_node_var_id scopes name).1 = true :=
  ⟨rfl, by simp [findVarValue, hhit], fun s' h => by simp [findVarValue, h], rfl⟩

/-- Witness for C5 (amended): the binding of `x` in the innermost scope
shadows the outer one. -/
theorem c5_identifier_lookup_witness :
    ([("x", Value.localVar 3)] : List (String × Value)).lookup "x" =
      some (Value.localVar 3) ∧
    findVarValue [[("x", Value.localVar 3)], [("x", Value.localVar 9)]] "x" =
      some (Value.localVar 3) :=
  ⟨rfl,
   (c5_identifier_lookup [] [[("x", Value.localVar 9)]] [("x", Value.localVar 3)]
     "x" (Value.localVar 3) rfl).2.1⟩

/-! ## Short-circuit evaluation (`IRGenerator::ir_and`, `ir_or`) -/

/-- The buffer `ir_and` emits for `a && f()`: the left operand is the local
variable `a` (id 0, empty buffer), the right operand is a call of `f`
(instruction id 1, its buffer being the single `FuncCall`), and the `&&`
lowering allocates from fresh id 2. -/
def andProg : List Instr :=
  (ir_and 2 (Value.localVar 0) (Value.instrRef 1) [] [Instr.call 1 "f" []]).2.1

/-- The buffer `ir_or` emits for `a || f()`. -/
def orProg : List Instr :=
  (ir_or 2 (Value.localVar 0) (Value.instrRef 1) [] [Instr.call 1 "f" []]).2.1

/-- C6 (short-circuit): executing the buffer emitted for `a && f()` from its
start with `a = 0` calls no function at all — the right operand's buffer is
entered only through the `L_rhs` label taken when `a` is non-zero (in which
case `f` is called exactly once); symmetrically, for `a || f()` with `a`
non-zero no function is called. -/
theorem c6_short_circuit (env : Nat → Int) :
    (env 0 = 0 → (run andProg 20 ⟨env, 0, []⟩).calls = []) ∧
    (env 0 ≠ 0 → (run andProg 20 ⟨env, 0, []⟩).calls = ["f"]) ∧
    (env 0 ≠ 0 → (run orProg 20 ⟨env, 0, []⟩).calls = []) ∧
    (env 0 = 0 → (run orProg 20 ⟨env, 0, []⟩).calls = ["f"]) := by
  refine ⟨fun h => ?_, fun h => ?_, fun h => ?_, fun h => ?_⟩ <;>
    simp [andProg, orProg, ir_and, ir_or, convertBoolToInt, run, step, findLabel,
      evalV, denoteOp, updEnv, h]

/-- Witness for C6: with `a = 0` the `&&` buffer calls nothing, with `a = 1`
the `||` buffer calls nothing. -/
theorem c6_short_circuit_witness :
    (run andProg 20 ⟨fun _ => 0, 0, []⟩).calls = [] ∧
    (run orProg 20 ⟨fun _ => 1, 0, []⟩).calls = [] :=
  ⟨(c6_short_circuit (fun _ => 0)).1 rfl,
   (c6_short_circuit (fun _ => 1)).2.2.1 (by decide)⟩

/-! ## ARM32 branch selection (`InstSelectorArm32::translate_br`,
`src/unnamed/part_003`) -/

/-- ARM32 register names (`PlatformArm32::regName`). -/
def regName (r : Nat) : String :=
  ["r0", "r1", "r2", "r3", "r4", "r5", "r6", "r7", "r8", "r9", "r10",
   "fp", "ip", "sp", "lr", "pc"].getD r "r?"

/-- The condition operand of a `GotoInstruction` as `translate_br` sees it:
its printable name and `getRegId()` (`none` models the C++ `-1`, i.e. the
value is not currently in a register). -/
structure CondOperand where
  name : String
  regId : Option Nat
deriving DecidableEq, Repr

/-- `InstSelectorArm32::translate_br`.  Unconditional (`cond == nullptr`):
a single `b Ltrue`.  Conditional: if the condition has no register, allocate
one (`allocReg`, the register the `simpleRegisterAllocator` hands out) and
load the condition into it; then `cmp rCond, #0`, `bne Ltrue`, `b Lfalse`,
in that order.  The load line stands for `iloc.load_var(loadReg, cond)`
(the ILoc emitter itself is outside `src/`). -/
def translate_br (allocReg : Nat) (cond : Option CondOperand)
    (ltrue lfalse : String) : List String :=
  match cond with
  | none => ["b " ++ ltrue]
  | some cv =>
    let loadReg := match cv.regId with
      | none => allocReg
      | some r => r
    let loadLines : List String := match cv.regId with
      | none => ["ldr " ++ regName allocReg ++ ", " ++ cv.name]
      | some _ => []
    loadLines ++
      ["cmp " ++ regName loadReg ++ ", #0", "bne " ++ ltrue, "b " ++ lfalse]

/-- C7: an unconditional goto becomes exactly `b Ltrue`; a conditional goto
first ensures the condition is in a register (emitting one load exactly when
it has none), then emits `cmp rCond, #0`, `bne Ltrue`, `b Lfalse`, in that
order. -/
theorem c7_branch_selection (allocReg r : Nat) (nm ltrue lfalse : String) :
    translate_br allocReg none ltrue lfalse = ["b " ++ ltrue] ∧
    translate_br allocReg (some ⟨nm, some r⟩) ltrue lfalse =
      ["cmp " ++ regName r ++ ", #0", "bne " ++ ltrue, "b " ++ lfalse] ∧
    translate_br allocReg (some ⟨nm, none⟩) ltrue lfalse =
      ["ldr " ++ regName allocReg ++ ", " ++ nm,
       "cmp " ++ regName allocReg ++ ", #0", "bne " ++ ltrue, "b " ++ lfalse] :=
  ⟨rfl, rfl, rfl⟩

/-! ## Loops, break and continue (`IRGenerator::ir_while`, `ir_break`,
`ir_continue`) -/

/-- The generator's loop stacks (`loopCondStack`, `loopEndStack`): pushed
with `push_back`, read with `back()`, so the innermost loop is the last
element. -/
structure LoopStacks where
  cond : List Nat
  endl : List Nat
deriving DecidableEq, Repr

/-- The stacks under which `ir_while` lowers its condition and body: its
fresh `L_cond` and `L_end` are pushed on the back before the children are
visited. -/
def whileLoopCtx (ls : LoopStacks) (lcond lend : Nat) : LoopStacks :=
  ⟨ls.cond ++ [lcond], ls.endl ++ [lend]⟩

/-- `IRGenerator::ir_while` after its children have been lowered under
`whileLoopCtx ls c (c+2)`: labels `L_cond` (id `c`), `L_body` (`c+1`),
`L_end` (`c+2`); emit `L_cond`, the condition buffer, the branch (an
unconditional goto for a `ConstInt` condition: to `L_body` when non-zero,
to `L_end` when zero), `L_body`, the body buffer, `goto L_cond`, `L_end`;
then the stacks are popped. -/
def ir_while (c : Nat) (condVal : Value) (condInsts bodyInsts : List Instr) :
    List Instr × Nat :=
  let branch : List Instr :=
    match condVal with
    | .constInt v => if v ≠ 0 then [Instr.goto (c + 1)] else [Instr.goto (c + 2)]
    | _ => [Instr.condGoto condVal (c + 1) (c + 2)]
  ([Instr.label c] ++ condInsts ++ branch ++
    [Instr.label (c + 1)] ++ bodyInsts ++ [Instr.goto c, Instr.label (c + 2)],
   c + 3)

/-- `IRGenerator::ir_break`: with an empty `loopEndStack` return `false`
having emitted nothing; otherwise emit a single unconditional goto to the
innermost (`back()`) `L_end`. -/
def ir_break (endStack : List Nat) : Bool × List Instr :=
  match endStack.getLast? with
  | none => (false, [])
  | some l => (true, [Instr.goto l])

/-- `IRGenerator::ir_continue`: same with `loopCondStack` and `L_cond`. -/
def ir_continue (condStack : List Nat) : Bool × List Instr :=
  match condStack.getLast? with
  | none => (false, [])
  | some l => (true, [Instr.goto l])

/-- C8: a break lowers to a single `goto` to the innermost entry of the loop
stack and a continue to the innermost `L_cond`; inside the body of
`ir_while c …` the innermost entries are that while's own `L_end` (`c+2`)
and `L_cond` (`c`), the labels emitted first and last by that very loop;
outside any loop (empty stacks) both fail with no instruction emitted. -/
theorem c8_break_continue (ls : LoopStacks) (s : List Nat) (l c : Nat)
    (condVal : Value) (condInsts bodyInsts : List Instr)
    (h : s.getLast? = some l) :
    ir_break s = (true, [Instr.goto l]) ∧
    ir_continue s = (true, [Instr.goto l]) ∧
    ir_break (whileLoopCtx ls c (c + 2)).endl = (true, [Instr.goto (c + 2)]) ∧
    ir_continue (whileLoopCtx ls c (c + 2)).cond = (true, [Instr.goto c]) ∧
    (ir_while c condVal condInsts bodyInsts).1 =
      [Instr.label c] ++ condInsts ++
      (match condVal with
       | .constInt v => if v ≠ 0 then [Instr.goto (c + 1)] else [Instr.goto (c + 2)]
       | _ => [Instr.condGoto condVal (c + 1) (c + 2)]) ++
      [Instr.label (c + 1)] ++ bodyInsts ++ [Instr.goto c, Instr.label (c + 2)] ∧
    ir_break [] = (false, []) ∧
    ir_continue [] = (false, []) := by
  refine ⟨?_, ?_, ?_, ?_, rfl, rfl, rfl⟩
  · simp [ir_break, h]
  · simp [ir_continue, h]
  · simp [ir_break, whileLoopCtx]
  · simp [ir_continue, whileLoopCtx]

/-- Witness for C8: a two-level loop stack with innermost label 7, a while
at labels 4,5,6. -/
theorem c8_break_continue_witness :
    ([3, 7] : List Nat).getLast? = some 7 ∧
    ir_break [3, 7] = (true, [Instr.goto 7]) :=
  ⟨by decide,
   (c8_break_continue ⟨[], []⟩ [3, 7] 7 4 (Value.localVar 0) [] [] (by decide)).1⟩

/-! ## Global variables and the BSS section
(`src/ir/Values/GlobalVariable.h`) -/

/-- `GlobalVariable`: the constructor sets 4-byte alignment; by default the
variable is in BSS with no initializer. -/
structure GlobalVariable where
  alignment : Nat
  inBSSSection : Bool
  initializer : Option Value
deriving DecidableEq, Repr

/-- A freshly constructed `GlobalVariable` (alignment 4, in BSS, no
initializer). -/
def GlobalVariable.fresh : GlobalVariable :=
  { alignment := 4, inBSSSection := true, initializer := none }

/-- `GlobalVariable::setInitializer`: store the initializer; whenever it is
non-null, clear the BSS flag — with no inspection of its value. -/
def GlobalVariable.setInitializer (g : GlobalVariable) (v : Option Value) :
    GlobalVariable :=
  match v with
  | some val => { g with initializer := some val, inBSSSection := false }
  | none => { g with initializer := none }

/-- C9: evaluating the code at the failing input.  A global initialized with
`ConstInt(0)` — `int g = 0;`, for which `ir_simple_var_def` calls
`setInitializer(ConstInt(0))` — ends with `isInBSSSection() = false`, i.e.
in `.data`, although the claim (and the code's own comment on
`isInBSSSection`) places zero-initialized globals in BSS.  The other cases
behave as claimed: no initializer keeps BSS, and a non-zero constant
initializer gives `.data` with alignment 4. -/
theorem c9_zero_initialized_global_not_in_bss :
    (GlobalVariable.fresh.setInitializer (some (Value.constInt 0))).inBSSSection
      = false ∧
    GlobalVariable.fresh.inBSSSection = true ∧
    (GlobalVariable.fresh.setInitializer (some (Value.constInt 5))).inBSSSection
      = false ∧
    (GlobalVariable.fresh.setInitializer (some (Value.constInt 5))).alignment = 4 :=
  ⟨rfl, rfl, rfl, rfl⟩

/-! ## The bool→int widening result is always 0 or 1 -/

/-- The sources of all moves into local `d` in a buffer, in emission
order. -/
def movesTo (l : List Instr) (d : Nat) : List Value :=
  l.filterMap fun i =>
    match i with
    | .move d' v => if d' = d then some v else none
    | _ => none

/-- C10: the i32 result of the bool→int pattern is the local allocated at
the current counter (fresh by construction); in the widening buffer the only
moves into it store the constants 1 and 0, and `ir_and`/`ir_or` add one more
constant move (0 resp. 1) on their short-circuit path; executing the
widening buffer from its start leaves the result equal to 1 when the
condition is non-zero and 0 otherwise — so at the join label it is always 0
or 1. -/
theorem c10_widening_result_is_boolean (c : Nat) (cond lval rval : Value)
    (env : Nat → Int) :
    (convertBoolToInt c cond).1 = c ∧
    movesTo (convertBoolToInt c cond).2.1 c =
      [Value.constInt 1, Value.constInt 0] ∧
    movesTo (ir_and c lval rval [] []).2.1 (c + 5) =
      [Value.constInt 1, Value.constInt 0, Value.constInt 0] ∧
    movesTo (ir_or c lval rval [] []).2.1 (c + 5) =
      [Value.constInt 1, Value.constInt 0, Value.constInt 1] ∧
    (run (convertBoolToInt c cond).2.1 10 ⟨env, 0, []⟩).env c =
      (if evalV env cond ≠ 0 then 1 else 0) := by
  have h12 : ¬ (c + 1 = c + 2) := by omega
  have h13 : ¬ (c + 1 = c + 3) := by omega
  have h23 : ¬ (c + 2 = c + 3) := by omega
  refine ⟨rfl, ?_, ?_, ?_, ?_⟩
  · simp [convertBoolToInt, movesTo, List.filterMap]
  · simp [ir_and, convertBoolToInt, movesTo, List.filterMap, h12]
  · simp [ir_or, convertBoolToInt, movesTo, List.filterMap, h12]
  · by_cases h : evalV env cond = 0 <;> simp only [evalV] at h <;>
      simp [convertBoolToInt, run, step, findLabel, evalV, updEnv, h, h12, h13, h23]

end MiniC
